import Mathlib

/-!
Shallow embedding of the camelsp preprocessing notebooks.

The repository consists of per-federal-state notebooks that parse dirty
tabular exports (Excel sheets split into blank-row separated blocks, zipped
space-separated text files, per-station CSV files) into a metadata mapping
plus a normalized `date / value / flag` time series.

This file embeds, faithfully to the Python source:
  * the block loop of `parse_dirty_dataframe` (preprocess_de4.ipynb),
    including its block classification and data extraction, with Python
    exceptions modelled as `Except Unit`;
  * `get_filename_mapping`, `get_file_from_zip` and `extract_file`
    (preprocess_de2.ipynb), including the lenient fallback path for
    malformed space-separated files;
  * `extract_file` (preprocess_def.ipynb, Schleswig-Holstein).

External library behaviour (Python `float`, `str`, `pandas.read_csv`
tokenization, `datetime.strptime`, `dateparser.parse`) is modelled by
executable Lean functions restricted to the input shapes the scripts feed
them; each such model carries a doc comment saying what it abstracts.
Numeric cell values are modelled as exact decimal fractions (`Dec`), since
the scripts only construct, compare against zero, and carry these values.
-/

namespace Camelsp

/-- Exact decimal number `num / 10 ^ den10`: the model of a Python float as
produced by parsing decimal text.  Only construction, sign tests and
carrying are performed by the scripts, so no normalization is needed. -/
structure Dec where
  num : Int
  den10 : Nat
deriving DecidableEq

/-- ASCII digit test (model of `str.isdigit` on the characters used). -/
def isDig (c : Char) : Bool :=
  48 ≤ c.toNat && c.toNat ≤ 57

/-- Numeric value of a list of ASCII digit characters. -/
def digitsToNat (l : List Char) : Nat :=
  l.foldl (fun a c => 10 * a + (c.toNat - 48)) 0

/-- Digit character for a value below ten. -/
def digitChar (n : Nat) : Char :=
  Char.ofNat (48 + n)

/-- Decimal digits of a natural number, most significant first
(structural recursion on a fuel argument so the kernel can evaluate it). -/
def natToStrAux : Nat → Nat → List Char
  | 0, _ => []
  | fuel + 1, n =>
      if n < 10 then [digitChar n]
      else natToStrAux fuel (n / 10) ++ [digitChar (n % 10)]

/-- Model of Python `str` on a natural number. -/
def natToStr (n : Nat) : String :=
  String.mk (natToStrAux (n + 1) n)

/-- Model of Python `str` on an integer. -/
def intToStr (i : Int) : String :=
  if i < 0 then "-" ++ natToStr i.natAbs else natToStr i.natAbs

/-- Split a character list at every occurrence of `sep`
(model of Python `str.split(sep)` for a one-character separator:
consecutive separators yield empty fields). -/
def splitOnChar (sep : Char) : List Char → List (List Char)
  | [] => [[]]
  | c :: cs =>
      let r := splitOnChar sep cs
      if c = sep then [] :: r
      else (c :: r.headD []) :: r.tail

/-- Model of Python `str.split(sep)` for a one-character separator. -/
def pySplit (s : String) (sep : Char) : List String :=
  (splitOnChar sep s.data).map String.mk

/-- Whitespace test used by the `str.strip` model. -/
def isWS (c : Char) : Bool :=
  c = ' ' || c = '\t' || c = '\n' || c = '\r'

/-- Model of Python `str.strip()`. -/
def pyStrip (s : String) : String :=
  String.mk (((s.data.dropWhile isWS).reverse.dropWhile isWS).reverse)

/-- ASCII lower-casing of one character. -/
def lowerChar (c : Char) : Char :=
  if 65 ≤ c.toNat ∧ c.toNat ≤ 90 then Char.ofNat (c.toNat + 32) else c

/-- Model of Python `str.lower()` (ASCII range; the marker strings compared
against by the scripts are already lower-case beyond ASCII). -/
def pyLower (s : String) : String :=
  String.mk (s.data.map lowerChar)

/-- Parse an optionally signed run of digits with at most one occurrence of
the decimal character `dot`.  Model of Python `float(s)` (for `dot = '.'`)
and of the `pandas.read_csv` numeric tokenizer with `decimal=','`
(for `dot = ','`), restricted to plain decimal notation — the only shapes
occurring in these exports. -/
def parseDecWith (dot : Char) (s : String) : Option Dec :=
  let cs := (s.data.dropWhile isWS).reverse.dropWhile isWS |>.reverse
  let (sgn, body) : Int × List Char :=
    match cs with
    | '-' :: r => (-1, r)
    | '+' :: r => (1, r)
    | r => (1, r)
  match splitOnChar dot body with
  | [a] =>
      if a ≠ [] ∧ a.all isDig then some ⟨sgn * digitsToNat a, 0⟩ else none
  | [a, b] =>
      if (a ≠ [] ∨ b ≠ []) ∧ a.all isDig ∧ b.all isDig then
        some ⟨sgn * digitsToNat (a ++ b), b.length⟩
      else none
  | _ => none

/-- Model of Python `float(s)`. -/
def pyFloat (s : String) : Option Dec :=
  parseDecWith '.' s

/-- Numeric tokenizer of `pandas.read_csv(..., decimal=',')`:
a field containing a `'.'` is not numeric under a comma decimal. -/
def csvCommaFloat (s : String) : Option Dec :=
  if s.data.any (· = '.') then none else parseDecWith ',' s

/-- A cell of a dirty tabular export: missing (`NaN`), text, an exact
decimal number, or a native date value. -/
inductive Cell where
  | empty
  | str (s : String)
  | num (d : Dec)
  | date (y m d : Nat)
deriving DecidableEq

/-- Model of Python `str` on a scalar cell.  Integer-valued numerics render
as plain digit strings (the case exercised by the timestamp handling);
a `NaN` renders as `"nan"` as in Python. -/
def cellToStr : Cell → String
  | .empty => "nan"
  | .str s => s
  | .num d =>
      if d.den10 = 0 then intToStr d.num
      else
        let n := d.num.natAbs
        let sgn := if d.num < 0 then "-" else ""
        let frac := natToStrAux (n % 10 ^ d.den10 + 1) (n % 10 ^ d.den10)
        sgn ++ natToStr (n / 10 ^ d.den10) ++ "." ++
          String.mk (List.replicate (d.den10 - frac.length) '0' ++ frac)
  | .date y m d => natToStr y ++ "-" ++ natToStr m ++ "-" ++ natToStr d

/-- Cell of a (possibly ragged) row at position `j`; absent positions read
as empty, the convention pandas realizes by NaN-padding. -/
def cellAt (r : List Cell) (j : Nat) : Cell :=
  (r.get? j).getD .empty

/-- A dirty spreadsheet grid as read by
`xls.parse(sheet, header=None, usecols=[0,1,2,3])`:
`cols` are the pandas column labels (positional integers for these reads)
and `rows` the cell rows. -/
structure Frame where
  cols : List Nat
  rows : List (List Cell)
deriving DecidableEq

/-- A row is empty when every cell across the frame's width is missing
(`df.isnull().all(axis=1)`). -/
def isNullRow (w : Nat) (r : List Cell) : Bool :=
  (List.range w).all (fun j => cellAt r j = .empty)

/-- Indices of the fully-empty separator rows
(`df[df.isnull().all(axis=1) == True].index.to_list()`). -/
def nullIdx (f : Frame) : List Nat :=
  (List.range f.rows.length).filter (fun i => isNullRow f.cols.length (f.rows.getD i []))

/-- The block loop's row ranges:
`zip([0] + null_idx, null_idx + [len(df)])`. -/
def blockRanges (f : Frame) : List (Nat × Nat) :=
  List.zip (0 :: nullIdx f) (nullIdx f ++ [f.rows.length])

/-- `df.iloc[lo:up, :]`. -/
def rowSlice (f : Frame) (lo up : Nat) : Frame :=
  ⟨f.cols, (f.rows.drop lo).take (up - lo)⟩

/-- The sequence of blocks the block loop iterates over. -/
def blocksOf (f : Frame) : List Frame :=
  (blockRanges f).map (fun p => rowSlice f p.1 p.2)

/-- `dropna(axis=0, how='all')`. -/
def dropNARows (f : Frame) : Frame :=
  ⟨f.cols, f.rows.filter (fun r => ¬ isNullRow f.cols.length r)⟩

/-- Column positions that hold at least one non-missing cell. -/
def keptCols (f : Frame) : List Nat :=
  (List.range f.cols.length).filter (fun j => f.rows.any (fun r => cellAt r j ≠ .empty))

/-- `dropna(axis=1, how='all')`: keep exactly the columns with some value,
rematerializing each row to the surviving positions (labels follow). -/
def dropNACols (f : Frame) : Frame :=
  ⟨(keptCols f).map (fun j => f.cols.getD j 0),
   f.rows.map (fun r => (keptCols f).map (cellAt r))⟩

/-- `df.iloc[:, :2]`. -/
def takeCols2 (f : Frame) : Frame :=
  ⟨f.cols.take 2, f.rows.map (List.take 2)⟩

end Camelsp

namespace Camelsp

/-- Python `dict` with cell keys, as a key-unique association list in
insertion order. -/
abbrev CDict := List (Cell × Cell)

/-- `d[k] = v`: replace an existing binding in place, else append. -/
def dinsert (d : CDict) (k v : Cell) : CDict :=
  if d.any (fun p => p.1 = k) then
    d.map (fun p => if p.1 = k then (k, v) else p)
  else d ++ [(k, v)]

/-- Dictionary lookup. -/
def dlookup (d : CDict) (k : Cell) : Option Cell :=
  (d.find? (fun p => p.1 = k)).map (·.2)

/-- Python `{**a, **b}`: fold `b`'s bindings into `a`, later entries
overriding earlier ones. -/
def dmerge (a b : CDict) : CDict :=
  b.foldl (fun acc p => dinsert acc p.1 p.2) a

/-- Dictionary built from a list of key/value pairs in order
(the semantics of repeated `d[k] = v` assignment). -/
def dictOfPairs (l : List (Cell × Cell)) : CDict :=
  l.foldl (fun acc p => dinsert acc p.1 p.2) []

/-- Effectful map over a list in the `Except` monad, mirroring a Python
list comprehension in which each element may raise. -/
def mapE (f : α → Except Unit β) : List α → Except Unit (List β)
  | [] => .ok []
  | a :: l => do
      let b ← f a
      let bs ← mapE f l
      .ok (b :: bs)

/-- `true` exactly on non-raising results. -/
def isOkE : Except Unit α → Bool
  | .ok _ => true
  | .error _ => false

namespace DE4

/-- Model of `dateparser.parse` restricted to ISO `YYYY-MM-DD` text, the
date shape occurring in the Brandenburg sheets; any other text yields
`none` (the library returns `None` on unparseable text). -/
def parseIsoDate (s : String) : Option (Nat × Nat × Nat) :=
  match pySplit s '-' with
  | [y, m, d] =>
      if y.data.length = 4 ∧ y.data.all isDig ∧
         m.data ≠ [] ∧ m.data.all isDig ∧ d.data ≠ [] ∧ d.data.all isDig then
        let mv := digitsToNat m.data
        let dv := digitsToNat d.data
        if 1 ≤ mv ∧ mv ≤ 12 ∧ 1 ≤ dv ∧ dv ≤ 31 then
          some (digitsToNat y.data, mv, dv)
        else none
      else none
  | _ => none

/-- `d.date() if isinstance(d, dt) else parse(d)`: a native date passes
through, text goes to the date parser, and any other value raises
(`dateparser.parse` rejects non-strings with `TypeError`). -/
def dateOfCell : Cell → Except Unit (Option (Nat × Nat × Nat))
  | .date y m d => .ok (some (y, m, d))
  | .str s => .ok (parseIsoDate s)
  | _ => .error ()

/-- One step of `block.iloc[:, 1].astype(float)`: numbers pass through,
missing stays `NaN`, numeric text is converted, anything else raises. -/
def floatOfCell : Cell → Except Unit (Option Dec)
  | .num d => .ok (some d)
  | .empty => .ok none
  | .str s =>
      match pyFloat s with
      | some d => .ok (some d)
      | none => .error ()
  | .date _ _ _ => .error ()

/-- `fl.strip().lower() == 'geprüft'`: requires a string cell
(anything else raises `AttributeError`). -/
def flagOfCell : Cell → Except Unit Bool
  | .str s => .ok (pyLower (pyStrip s) = "geprüft")
  | _ => .error ()

/-- Block 0/1 key-value recovery:
`block.iloc[:, :2].dropna(axis=1, how='all').dropna(axis=0, how='all')`
then `block.set_index(0).T.to_dict(orient='records')`.
Raises (`KeyError`) when column label 0 was dropped; yields one record—the
column-0-to-column-1 dictionary—when column label 1 survives, else none. -/
def extractKVBlock (b : Frame) : Except Unit (List CDict) :=
  let b1 := dropNACols (takeCols2 b)
  let b2 := dropNARows b1
  if (0 : Nat) ∈ b1.cols then
    if (1 : Nat) ∈ b1.cols then
      .ok [dictOfPairs (b2.rows.map (fun r =>
        (cellAt r (b1.cols.indexOf 0), cellAt r (b1.cols.indexOf 1))))]
    else .ok []
  else .error ()

/-- Block 2 record recovery:
`dropna` on both axes, `block.iloc[0, 0] = 'CRS'`, first row becomes the
header, remaining rows become records.  Raises (`IndexError`) when nothing
survives the `dropna` calls. -/
def coordBlock (b : Frame) : Except Unit (List CDict) :=
  let b2 := dropNARows (dropNACols b)
  match b2.rows with
  | [] => .error ()
  | hdr :: rest =>
      let hdr' := Cell.str "CRS" :: hdr.tail
      .ok (rest.map (fun r =>
        dictOfPairs ((List.range b2.cols.length).map (fun j =>
          (cellAt hdr' j, cellAt r j)))))

/-- One observation row of the extracted time series. -/
structure Obs where
  date : Option (Nat × Nat × Nat)
  value : Option Dec
  flag : Bool
deriving DecidableEq

/-- The data `pandas.DataFrame` built by the data branch:
columns `date`, the lower-cased variable code, `flag`. -/
structure DTS where
  var : String
  rows : List Obs
deriving DecidableEq

/-- Data block extraction (`i == 3` branch):
`dropna(axis=0, how='all').dropna(axis=1, how='all')`, first surviving row
becomes the header and is dropped, then the three columns are built from
positions 0 (date), 1 (value) and 3 (flag).  Raises when nothing survives
the `dropna` calls, when fewer than four columns survive (`IndexError` on
`iloc[:, 3]`), or when a cell conversion raises. -/
def dataBlock (v : String) (b : Frame) : Except Unit DTS :=
  let b2 := dropNACols (dropNARows b)
  match b2.rows with
  | [] => .error ()
  | _ :: rest =>
      if b2.cols.length < 4 then .error ()
      else do
        let dates ← mapE (fun r => dateOfCell (cellAt r 0)) rest
        let vals ← mapE (fun r => floatOfCell (cellAt r 1)) rest
        let flags ← mapE (fun r => flagOfCell (cellAt r 3)) rest
        .ok ⟨pyLower v, (dates.zip (vals.zip flags)).map (fun p => ⟨p.1, p.2.1, p.2.2⟩)⟩

/-- The loop state of `parse_dirty_dataframe`:
`ID`, `base`, `loc`, `co`, `dat`. -/
structure PState where
  id? : Option String
  base : CDict
  loc : CDict
  co : CDict
  dat : Option DTS
deriving DecidableEq

/-- Initial loop state: everything unset. -/
def initState : PState :=
  ⟨none, [], [], [], none⟩

/-- Body of the block loop of `parse_dirty_dataframe` for block index `i`.
Index 0 recovers `base` (and `ID` when the key `'ID'` is present, warning
otherwise), index 1 recovers `loc`, index 2 recovers `co`, index 3 builds
the data frame when data was requested and an `ID` was resolved, and any
later index is ignored by the `if`/`elif` chain. -/
def processBlock (v : String) (skip : Bool) (st : PState) (i : Nat) (b : Frame) :
    Except Unit PState :=
  match i with
  | 0 => do
      let recs ← extractKVBlock b
      match recs.head? with
      | some rec =>
          let newId :=
            match dlookup rec (.str "ID") with
            | some w => some (cellToStr w)
            | none => st.id?
          .ok { st with id? := newId, base := rec }
      | none => .ok st
  | 1 => do
      let recs ← extractKVBlock b
      match recs.head? with
      | some rec => .ok { st with loc := rec }
      | none => .ok st
  | 2 => do
      let recs ← coordBlock b
      match recs.head? with
      | some rec => .ok { st with co := rec }
      | none => .ok st
  | 3 =>
      if skip then .ok st
      else
        match st.id? with
        | none => .ok st
        | some _ => do
            let ts ← dataBlock v b
            .ok { st with dat := some ts }
  | _ => .ok st

/-- The block loop from index `i` over the remaining blocks. -/
def processFrom (v : String) (skip : Bool) : PState → Nat → List Frame → Except Unit PState
  | st, _, [] => .ok st
  | st, i, b :: bs => do
      let st' ← processBlock v skip st i b
      processFrom v skip st' (i + 1) bs

/-- The whole block loop of `parse_dirty_dataframe` on a grid. -/
def processBlocks (g : Frame) (v : String) (skip : Bool) : Except Unit PState :=
  processFrom v skip initState 0 (blocksOf g)

/-- `parse_dirty_dataframe(df, variable, skip_data)`:
run the block loop, merge `{**base, **loc, **co}`, and return `None`
instead of an empty metadata mapping. -/
def parse_dirty_dataframe (g : Frame) (v : String) (skip : Bool) :
    Except Unit (Option CDict × Option DTS) := do
  let st ← processBlocks g v skip
  let meta := dmerge (dmerge st.base st.loc) st.co
  .ok (if meta = [] then none else some meta, st.dat)

/-- The identifier that block 0 resolves: the `'ID'` entry of the first
block's recovered key-value record, rendered with `str`. -/
def block0Id (g : Frame) : Option String :=
  match blocksOf g with
  | [] => none
  | b :: _ =>
      match extractKVBlock b with
      | .ok (rec :: _) => (dlookup rec (.str "ID")).map cellToStr
      | _ => none

/-- The series component of a `parse_dirty_dataframe` result
(`none` both when the call raises and when no series was built). -/
def datOf (r : Except Unit (Option CDict × Option DTS)) : Option DTS :=
  match r with
  | .ok (_, d) => d
  | .error _ => none

end DE4

end Camelsp

namespace Camelsp

instance {ε α : Type} [DecidableEq ε] [DecidableEq α] : DecidableEq (Except ε α) := fun x y =>
  match x, y with
  | .ok a, .ok b =>
      if h : a = b then .isTrue (by rw [h]) else .isFalse (fun hh => by cases hh; exact h rfl)
  | .error a, .error b =>
      if h : a = b then .isTrue (by rw [h]) else .isFalse (fun hh => by cases hh; exact h rfl)
  | .ok _, .error _ => .isFalse (fun hh => by cases hh)
  | .error _, .ok _ => .isFalse (fun hh => by cases hh)

namespace DE2

/-- A station identifier argument, `Union[int, str]` in the source. -/
abbrev IdArg := String ⊕ Int

/-- `str(nr)`. -/
def strOfId : IdArg → String
  | .inl s => s
  | .inr i => intToStr i

/-- A zip archive, abstracted to its member file names with their text
content already split into lines (`zipfile` is pure I/O plumbing). -/
abbrev Zip := List (String × List String)

/-- `os.path.basename`. -/
def basename (p : String) : String :=
  (pySplit p '/').getLastD ""

/-- `os.path.basename(f).split('.')[0]`: the short id of a member name. -/
def idOnly (p : String) : String :=
  (pySplit (basename p) '.').headD ""

/-- A string-keyed Python `dict` as a key-unique association list. -/
abbrev SDict := List (String × String)

/-- `m[k] = v` on a string dictionary. -/
def sinsert (d : SDict) (k v : String) : SDict :=
  if d.any (fun p => p.1 = k) then
    d.map (fun p => if p.1 = k then (k, v) else p)
  else d ++ [(k, v)]

/-- String dictionary lookup. -/
def slookup (d : SDict) (k : String) : Option String :=
  (d.find? (fun p => p.1 = k)).map (·.2)

/-- `get_filename_mapping`: map each member's short id (basename without
extension) to its full member name; later members override earlier ones. -/
def get_filename_mapping (names : List String) : SDict :=
  names.foldl (fun m f => sinsert m (idOnly f) f) []

/-- Member names of a zip. -/
def zipNames (z : Zip) : List String :=
  z.map (·.1)

/-- Lines of the member `fname` (only read after a membership check). -/
def contentOf (z : Zip) (fname : String) : List String :=
  ((z.find? (fun p => p.1 = fname)).map (·.2)).getD []

/-- `get_file_from_zip(nr, zippath, not_exists)`: normalize the id to text,
match it first against the mapping's values (full member names), then its
keys (short ids); the final `else` branch of the source constructs a
`FileNotFoundError` without raising it, so the name falls through to the
membership check, which either raises (policy `'raise'`) or yields `None`. -/
def get_file_from_zip (z : Zip) (nr : IdArg) (not_exists : String) :
    Except Unit (Option (List String)) :=
  let fmap := get_filename_mapping (zipNames z)
  let fname := strOfId nr
  let fname :=
    if fname ∈ fmap.map (·.2) then fname
    else
      match slookup fmap fname with
      | some v => v
      | none => fname
  if fname ∈ zipNames z then .ok (some (contentOf z fname))
  else if not_exists = "raise" then .error ()
  else .ok none

/-- `get_file_from_zip` with the source's default policy
`not_exists='raise'`. -/
def get_file_from_zip_default (z : Zip) (nr : IdArg) :
    Except Unit (Option (List String)) :=
  get_file_from_zip z nr "raise"

/-- A tokenized `pandas.read_csv` result: the inferred column count and the
rows, NaN-padded to that width. -/
structure Csv where
  ncols : Nat
  rows : List (List Cell)
deriving DecidableEq

/-- One raw field under `sep=' '`, `decimal=','`: empty text is `NaN`,
numeric text (comma decimal) a number, anything else a string. -/
def csvField (s : String) : Cell :=
  if s = "" then .empty
  else
    match csvCommaFloat s with
    | some d => .num d
    | none => .str s

/-- The two ways `pandas.read_csv` fails on these inputs: a tokenizing
`ParserError` (a line with more fields than expected) or an
`EmptyDataError` (no data lines at all).  The source catches only the
former on the strict path and any exception on the fallback re-parse. -/
inductive CsvErr where
  | parserError
  | emptyData
deriving DecidableEq

/-- Model of `pandas.read_csv(..., skiprows, sep=' ', decimal=',',
header=None)` on a list of text lines: skip the header lines and blank
lines, infer the field count from the first remaining line, raise
`ParserError` when a later line has more fields, raise
`EmptyDataError` on no data, and NaN-pad shorter lines. -/
def readCsv (lines : List String) (skiprows : Nat) : Except CsvErr Csv :=
  let ls := (lines.drop skiprows).filter (fun l => l ≠ "")
  match ls with
  | [] => .error .emptyData
  | l0 :: _ =>
      let n := (pySplit l0 ' ').length
      if ls.any (fun l => n < (pySplit l ' ').length) then .error .parserError
      else
        .ok ⟨n, ls.map (fun l =>
          let fs := (pySplit l ' ').map csvField
          fs ++ List.replicate (n - fs.length) Cell.empty)⟩

/-- The structured warnings `extract_file` can emit
(`warnings.warn` with the `nr;category;detail` convention). -/
inductive Diag where
  | faultyRows (nr : String) (positions : List Nat)
  | parserFail (nr : String)
  | threeCols (nr : String)
deriving DecidableEq

/-- Model of `dt.strptime(str(t)[:8], '%Y%m%d')`: the first eight
characters of the rendered timestamp must be digits forming a plausible
calendar date, else the call raises. -/
def parseYmd8 (s : String) : Except Unit (Nat × Nat × Nat) :=
  let l := s.data.take 8
  if l.length = 8 ∧ l.all isDig then
    let m := digitsToNat ((l.drop 4).take 2)
    let d := digitsToNat (l.drop 6)
    if 1 ≤ m ∧ m ≤ 12 ∧ 1 ≤ d ∧ d ≤ 31 then
      .ok (digitsToNat (l.take 4), m, d)
    else .error ()
  else .error ()

/-- Timestamp of a row: `dt.strptime(str(t)[:8], '%Y%m%d')` on the cell. -/
def ymdOfCell (c : Cell) : Except Unit (Nat × Nat × Nat) :=
  parseYmd8 (cellToStr c)

/-- One parsed observation of the Bavarian export: date, raw value cell,
and the always-`None` flag. -/
structure Obs2 where
  date : Nat × Nat × Nat
  value : Cell
  flag : Option Bool
deriving DecidableEq

/-- The `pandas.DataFrame` returned by `extract_file`. -/
structure TS2 where
  cols : List String
  rows : List Obs2
deriving DecidableEq

/-- The `date / variable / flag` empty frame returned for missing files. -/
def emptyTS2 (v : String) : TS2 :=
  ⟨["date", pyLower v, "flag"], []⟩

/-- `float(row.split(' ')[1]) < 0`: the per-line fault test of the lenient
fallback.  Raises when the line has no second field (`IndexError`) or the
field is not float-parseable (`ValueError`). -/
def lineFaulty (l : String) : Except Unit Bool :=
  match (pySplit l ' ').get? 1 with
  | none => .error ()
  | some f =>
      match pyFloat f with
      | none => .error ()
      | some d => .ok (decide (d.num < 0))

/-- The tail of `extract_file` shared by all paths: rename the columns
(warning when only three survive, raising when neither three nor four),
parse each timestamp, and assemble the `date / variable / flag` frame with
an all-`None` flag column. -/
def buildTS (nr v : String) (raw : Csv) (diags : List Diag) :
    Except Unit (TS2 × List Diag) :=
  let diags := if raw.ncols = 3 then diags ++ [Diag.threeCols nr] else diags
  if raw.ncols = 3 ∨ raw.ncols = 4 then do
    let obs ← mapE (fun r => do
      let d ← ymdOfCell (cellAt r 0)
      .ok (⟨d, cellAt r 1, none⟩ : Obs2)) raw.rows
    .ok (⟨["date", pyLower v, "flag"], obs⟩, diags)
  else .error ()

/-- `extract_file(nr, variable, zippath, not_exists)`: resolve the member,
return the empty frame when the non-raise policy yields `None`, otherwise
parse strictly; on `ParserError` drop the lines whose second field is
negative (collecting their original-file positions, offset by the 8 header
lines), re-parse, and on a second failure warn and continue with an empty
four-column frame instead of raising. -/
def extract_file (z : Zip) (nr : IdArg) (v : String) (not_exists : String) :
    Except Unit (TS2 × List Diag) := do
  let content? ← get_file_from_zip z nr not_exists
  match content? with
  | none => .ok (emptyTS2 v, [])
  | some lines =>
      match readCsv lines 8 with
      | .ok raw => buildTS (strOfId nr) v raw []
      | .error .emptyData => .error ()
      | .error .parserError => do
          let dls := lines.drop 8
          let faulty ← mapE lineFaulty dls
          let kept := (dls.zip faulty).filterMap
            (fun p => if p.2 then none else some p.1)
          match readCsv kept 0 with
          | .ok raw2 =>
              buildTS (strOfId nr) v raw2
                [Diag.faultyRows (strOfId nr)
                  (faulty.enum.filterMap (fun p => if p.2 then some (p.1 + 8) else none))]
          | .error _ =>
              buildTS (strOfId nr) v ⟨4, []⟩ [Diag.parserFail (strOfId nr)]

/-- The lines the fallback keeps, characterized directly: the data-region
lines whose second field is a non-negative float. -/
def keptLinesSpec (lines : List String) : List String :=
  (lines.drop 8).filter (fun l => lineFaulty l = .ok false)

/-- The reported positions, characterized directly: the 0-based data-region
indices of the negative-value lines, offset by the 8 header lines into
original-file line numbers. -/
def faultyPositionsSpec (lines : List String) : List Nat :=
  (lines.drop 8).enum.filterMap
    (fun p => if lineFaulty p.2 = .ok true then some (p.1 + 8) else none)

end DE2

end Camelsp

namespace Camelsp

namespace DEF

/-- One data row of a Schleswig-Holstein per-station CSV as
`pandas.read_csv(..., sep=';', decimal=',', parse_dates=[0], dayfirst=True)`
delivers it: a date cell, a value cell and a flag cell (the source then
forces exactly the three labels `date`, `q`, `flag` onto the frame). -/
structure RowF where
  dateC : Cell
  qC : Cell
  flagC : Cell
deriving DecidableEq

/-- The data directory, abstracted to a map from cleaned station id to the
already-read rows of `<id>.csv` (path joining and `os.path.exists` are I/O
plumbing). -/
abbrev Dir := List (String × List RowF)

/-- `nr = str(nr); if '.' in nr: nr = nr.replace('.', '')`. -/
def cleanId (s : String) : String :=
  if s.data.any (· = '.') then String.mk (s.data.filter (· ≠ '.')) else s

/-- `os.path.exists` plus the read: the rows of the station's file. -/
def lookupFile (d : Dir) (k : String) : Option (List RowF) :=
  (d.find? (fun p => p.1 = k)).map (·.2)

/-- The returned frame: columns plus `(date, q, flag)` observation rows. -/
structure TSf where
  cols : List String
  rows : List (Cell × Option Dec × Bool)
deriving DecidableEq

/-- `pd.DataFrame(columns=['date', 'q', 'flag'])`. -/
def emptyTSf : TSf :=
  ⟨["date", "q", "flag"], []⟩

/-- `f.lower() == 'qualitätsgesichert'`: requires a string flag cell
(anything else, in particular `NaN`, raises `AttributeError`). -/
def flagQual : Cell → Except Unit Bool
  | .str s => .ok (pyLower s = "qualitätsgesichert")
  | _ => .error ()

/-- `extract_file(nr, base_path)` of the Schleswig-Holstein notebook:
clean the id, return the empty `date/q/flag` frame when the file does not
exist, convert the value column with `astype(float)`, return the empty
frame when every converted value is `NaN` (`df.q.isna().all()`), and only
then derive the boolean flag column. -/
def extract_file (d : Dir) (nr : DE2.IdArg) : Except Unit TSf :=
  let nrc := cleanId (DE2.strOfId nr)
  match lookupFile d nrc with
  | none => .ok emptyTSf
  | some rows => do
      let qs ← mapE (fun r => DE4.floatOfCell r.qC) rows
      if qs.all (·.isNone) then .ok emptyTSf
      else do
        let flags ← mapE (fun r => flagQual r.flagC) rows
        .ok ⟨["date", "q", "flag"],
          (rows.zip (qs.zip flags)).map (fun p => (p.1.dateC, p.2.1, p.2.2))⟩

end DEF

/-! ### Helper lemmas for the block splitter -/

/-- A strictly increasing list bounded below by `c` is a `≤`-chain from `c`. -/
theorem chain_le_of_pw : ∀ (l : List Nat) (c : Nat), l.Pairwise (· < ·) →
    (∀ x ∈ l, c ≤ x) → List.Chain (· ≤ ·) c l
  | [], _, _, _ => .nil
  | d :: l', c, hpw, hlb => by
      rcases List.pairwise_cons.1 hpw with ⟨hd, hpw'⟩
      exact .cons (hlb d (by simp))
        (chain_le_of_pw l' d hpw' (fun x hx => le_of_lt (hd x hx)))

/-- Telescoping: the ranges cut by an ascending list of cut points between
`a` and `n` have total length `n - a`. -/
theorem teleSum : ∀ (l : List Nat) (a n : Nat), List.Chain (· ≤ ·) a l →
    (∀ x ∈ l, x ≤ n) → a ≤ n →
    ((((a :: l).zip (l ++ [n])).map (fun p => p.2 - p.1)).sum = n - a)
  | [], a, n, _, _, _ => by simp
  | b :: l', a, n, hch, hub, han => by
      rcases List.chain_cons.1 hch with ⟨hab, hch'⟩
      have hrec := teleSum l' b n hch' (fun x hx => hub x (by simp [hx])) (hub b (by simp))
      have hbn : b ≤ n := hub b (by simp)
      simp only [List.cons_append, List.zip_cons_cons, List.map_cons, List.sum_cons, hrec]
      omega

/-- Every cut point heads a block of the cut ranges, and that block extends
strictly beyond it. -/
theorem cut_mem_block : ∀ (l : List Nat) (a n : Nat), l.Pairwise (· < ·) →
    (∀ x ∈ l, x < n) → ∀ i ∈ l,
    ∃ p ∈ (a :: l).zip (l ++ [n]), p.1 = i ∧ i < p.2
  | [], _, _, _, _, i, hi => absurd hi (by simp)
  | c :: l', a, n, hpw, hub, i, hi => by
      rcases List.pairwise_cons.1 hpw with ⟨hc, hpw'⟩
      rcases List.mem_cons.1 hi with hic | hil
      · subst hic
        cases l' with
        | nil =>
            exact ⟨(i, n), by simp [List.zip_cons_cons], rfl, hub i (by simp)⟩
        | cons d l'' =>
            exact ⟨(i, d), by simp [List.zip_cons_cons], rfl, hc d (by simp)⟩
      · rcases cut_mem_block l' c n hpw' (fun x hx => hub x (by simp [hx])) i hil
          with ⟨p, hp, hpi⟩
        exact ⟨p, by simp [List.zip_cons_cons, hp], hpi⟩

/-- The separator indices are strictly increasing. -/
theorem nullIdx_pairwise (f : Frame) : (nullIdx f).Pairwise (· < ·) :=
  (List.pairwise_lt_range _).filter _

/-- Every separator index is a valid row index. -/
theorem nullIdx_lt (f : Frame) : ∀ x ∈ nullIdx f, x < f.rows.length := by
  intro x hx
  have := List.mem_range.1 (List.mem_of_mem_filter hx)
  exact this

/-- The empty grid used to exhibit the degenerate block. -/
def emptyGrid : Frame := ⟨[0, 1, 2, 3], []⟩

/-- A three-row grid whose middle row is an empty separator. -/
def sepGrid : Frame := ⟨[0], [[.str "a"], [.empty], [.str "b"]]⟩

/-- Claim C1, counterexample: on a grid with zero rows the block loop does
not return an empty sequence of blocks — it returns the single degenerate
range `(0, 0)`. -/
theorem C1_counterexample : blockRanges emptyGrid ≠ [] := by decide

/-- Claim C1, amended: for every CellGrid with zero rows, the block loop of
`parse_dirty_dataframe` returns exactly one block, the empty row range
`[0, 0)` (so the sequence of blocks is not empty, but covers no rows). -/
theorem C1_theorem (g : Frame) (h : g.rows = []) : blockRanges g = [(0, 0)] := by
  simp [blockRanges, nullIdx, h]

/-- Claim C1, witness: the amended statement at a concrete empty grid. -/
theorem C1_witness : blockRanges emptyGrid = [(0, 0)] :=
  C1_theorem emptyGrid rfl

/-- Claim C2, counterexample: on the grid `[a; ∅; b]` the block loop
returns `[(0,1), (1,3)]`: the fully-empty separator row 1 is *included* as
the first row of the second block, contradicting the claim that every
separator row is excluded from every block (and making re-insertion of
separators overcount the rows). -/
theorem C2_counterexample :
    blockRanges sepGrid = [(0, 1), (1, 3)] ∧
    isNullRow sepGrid.cols.length (sepGrid.rows.getD 1 []) = true := by
  decide

/-- Claim C2, amended: the block loop returns the half-open row ranges cut
at `0`, every fully-empty row index, and the row count, in order; each
separator row is included as the first row of the block that follows it
(not excluded); consequently the ranges tile the grid exactly, so the sum
of the block lengths alone — without re-inserting anything — reconstructs
the original row count. -/
theorem C2_theorem (g : Frame) :
    ((blockRanges g).map Prod.fst = 0 :: nullIdx g) ∧
    ((blockRanges g).map Prod.snd = nullIdx g ++ [g.rows.length]) ∧
    (((blockRanges g).map (fun p => p.2 - p.1)).sum = g.rows.length) ∧
    (∀ i ∈ nullIdx g, ∃ p ∈ blockRanges g, p.1 = i ∧ i < p.2) := by
  have hlen : (0 :: nullIdx g).length = (nullIdx g ++ [g.rows.length]).length := by
    simp
  refine ⟨?_, ?_, ?_, ?_⟩
  · exact List.map_fst_zip _ _ (le_of_eq hlen)
  · exact List.map_snd_zip _ _ (ge_of_eq hlen).le
  · have := teleSum (nullIdx g) 0 g.rows.length
      (chain_le_of_pw _ _ (nullIdx_pairwise g) (fun x _ => Nat.zero_le x))
      (fun x hx => le_of_lt (nullIdx_lt g x hx)) (Nat.zero_le _)
    simpa [blockRanges] using this
  · intro i hi
    exact cut_mem_block (nullIdx g) 0 g.rows.length (nullIdx_pairwise g)
      (nullIdx_lt g) i hi

/-- Claim C2, witness: on the concrete separator grid, the separator row 1
heads the block `(1, 3)`. -/
theorem C2_witness : ∃ p ∈ blockRanges sepGrid, p.1 = 1 ∧ 1 < p.2 :=
  (C2_theorem sepGrid).2.2.2 1 (by decide)

end Camelsp

namespace Camelsp

/-- A well-formed four-block Brandenburg sheet: identity block (`ID`),
location block, coordinates block, and a data block with header row
`[date, value, status, extra]` and the single data row
`2020-01-01, 1.23, geprüft, x` — the grid of the spec's example. -/
def brandGrid : Frame := ⟨[0, 1, 2, 3], [
  [.str "ID", .str "4711", .empty, .empty],
  [.empty, .empty, .empty, .empty],
  [.str "Ort", .str "Hier", .empty, .empty],
  [.empty, .empty, .empty, .empty],
  [.str "crs", .str "x", .str "y", .empty],
  [.str "25833", .num ⟨1, 0⟩, .num ⟨2, 0⟩, .empty],
  [.empty, .empty, .empty, .empty],
  [.str "date", .str "value", .str "status", .str "extra"],
  [.str "2020-01-01", .num ⟨123, 2⟩, .str "geprüft", .str "x"]]⟩

/-- The same sheet with the verified marker (mixed case, padded) placed in
0-based column 3 of the data row instead of column 2. -/
def brandGridFlag3 : Frame := ⟨[0, 1, 2, 3], [
  [.str "ID", .str "4711", .empty, .empty],
  [.empty, .empty, .empty, .empty],
  [.str "Ort", .str "Hier", .empty, .empty],
  [.empty, .empty, .empty, .empty],
  [.str "crs", .str "x", .str "y", .empty],
  [.str "25833", .num ⟨1, 0⟩, .num ⟨2, 0⟩, .empty],
  [.empty, .empty, .empty, .empty],
  [.str "date", .str "value", .str "status", .str "extra"],
  [.str "2020-01-01", .num ⟨123, 2⟩, .str "x", .str " Geprüft "]]⟩

/-- Claim C3, counterexample: on the spec's example grid, `extract` does
return exactly one observation, but its flag is `false`, not `true`: the
source reads the flag from 0-based column 3 (`block.iloc[:, 3]`), which of
the row `2020-01-01, 1.23, geprüft, x` holds `x`, not the verified
marker. -/
theorem C3_counterexample :
    DE4.parse_dirty_dataframe brandGrid "q" false =
      .ok (some [(.str "ID", .str "4711"), (.str "Ort", .str "Hier"),
                 (.str "CRS", .str "25833"), (.str "x", .num ⟨1, 0⟩),
                 (.str "y", .num ⟨2, 0⟩)],
           some ⟨"q", [⟨some (2020, 1, 1), some ⟨123, 2⟩, false⟩]⟩) := by
  decide

/-- Claim C3, amended: on the spec's example grid `extract` returns exactly
one ObservationRecord, but its flag is `false`, because the flag is derived
from 0-based column 3 (holding `x`) by the case-insensitive stripped
comparison with the verified marker; placing the marker ` Geprüft ` in
column 3 instead yields flag `true`. -/
theorem C3_theorem :
    DE4.datOf (DE4.parse_dirty_dataframe brandGrid "q" false) =
      some ⟨"q", [⟨some (2020, 1, 1), some ⟨123, 2⟩, false⟩]⟩ ∧
    DE4.datOf (DE4.parse_dirty_dataframe brandGridFlag3 "q" false) =
      some ⟨"q", [⟨some (2020, 1, 1), some ⟨123, 2⟩, true⟩]⟩ := by
  decide

/-! ### Dictionary lemmas: Python `dict` update and `{**a, **b}` merge -/

/-- First-defined choice on optional lookups (`x` if present, else `y`). -/
def oor (x y : Option Cell) : Option Cell :=
  match x with
  | some v => some v
  | none => y

/-- `dlookup` on an empty dictionary. -/
theorem dlookup_nil (k : Cell) : dlookup [] k = none := rfl

/-- `dlookup` steps through a cons cell. -/
theorem dlookup_cons (p : Cell × Cell) (l : CDict) (k : Cell) :
    dlookup (p :: l) k = if p.1 = k then some p.2 else dlookup l k := by
  by_cases h : p.1 = k <;> simp [dlookup, List.find?, h]

/-- `dlookup` distributes over append. -/
theorem dlookup_append (a b : CDict) (k : Cell) :
    dlookup (a ++ b) k = oor (dlookup a k) (dlookup b k) := by
  induction a with
  | nil => simp [dlookup_nil, oor]
  | cons p a' ih =>
      by_cases h : p.1 = k <;>
        simp [List.cons_append, dlookup_cons, h, ih, oor]

/-- A key that matches no entry looks up to `none`. -/
theorem dlookup_eq_none_of_not_any (a : CDict) (k : Cell)
    (h : ¬ a.any (fun p => p.1 = k)) : dlookup a k = none := by
  induction a with
  | nil => rfl
  | cons p a' ih =>
      simp only [List.any_cons, Bool.or_eq_true, not_or] at h
      rw [dlookup_cons, if_neg (by simpa using h.1)]
      exact ih (by simpa using h.2)

/-- Replacing the binding of `k` inside a list only affects lookups of `k`. -/
theorem dlookup_replace (a : CDict) (k v k' : Cell) (hne : k' ≠ k) :
    dlookup (a.map (fun p => if p.1 = k then (k, v) else p)) k' = dlookup a k' := by
  induction a with
  | nil => rfl
  | cons p a' ih =>
      by_cases hp : p.1 = k
      · rw [List.map_cons, if_pos hp, dlookup_cons, dlookup_cons,
          if_neg (show ¬ ((k, v).1 = k') from fun h => hne h.symm),
          if_neg (show ¬ (p.1 = k') from fun h => hne (hp.symm.trans h).symm)]
        exact ih
      · rw [List.map_cons, if_neg hp, dlookup_cons, dlookup_cons]
        by_cases hk' : p.1 = k' <;> simp [hk', ih]

/-- After replacement, a present key looks up to the new value. -/
theorem dlookup_map_self (a : CDict) (k v : Cell)
    (hmem : a.any (fun p => p.1 = k)) :
    dlookup (a.map (fun p => if p.1 = k then (k, v) else p)) k = some v := by
  induction a with
  | nil => cases hmem
  | cons p a' ih =>
      by_cases hp : p.1 = k
      · rw [List.map_cons, if_pos hp, dlookup_cons, if_pos rfl]
      · rw [List.map_cons, if_neg hp, dlookup_cons, if_neg hp]
        rw [List.any_cons] at hmem
        rcases Bool.or_eq_true_iff.1 hmem with h | h
        · exact absurd (of_decide_eq_true h) hp
        · exact ih h

/-- Lookup after a Python dictionary update `d[k] = v`. -/
theorem dlookup_dinsert (a : CDict) (k v k' : Cell) :
    dlookup (dinsert a k v) k' = if k' = k then some v else dlookup a k' := by
  unfold dinsert
  by_cases hmem : a.any (fun p => p.1 = k)
  · rw [if_pos hmem]
    by_cases hk : k' = k
    · subst hk
      rw [if_pos rfl, dlookup_map_self a k' v hmem]
    · rw [if_neg hk, dlookup_replace a k v k' hk]
  · rw [if_neg hmem, dlookup_append]
    by_cases hk : k' = k
    · subst hk
      rw [dlookup_eq_none_of_not_any a k' hmem, if_pos rfl]
      simp [oor, dlookup_cons]
    · rw [if_neg hk]
      rcases h : dlookup a k' with _ | w
      · rw [oor, dlookup_cons, if_neg (show ¬ (k = k') from fun hh => hk hh.symm),
          dlookup_nil]
      · rw [oor]

end Camelsp

namespace Camelsp

/-- The keys of a dictionary. -/
def dkeys (d : CDict) : List Cell :=
  d.map (·.1)

/-- A key is in `dkeys` exactly when some entry matches it. -/
theorem any_eq_true_iff_mem_dkeys (d : CDict) (k : Cell) :
    d.any (fun p => p.1 = k) = true ↔ k ∈ dkeys d := by
  simp [dkeys, List.any_eq_true]

/-- `dinsert` never empties a dictionary. -/
theorem dinsert_ne_nil (d : CDict) (k v : Cell) : dinsert d k v ≠ [] := by
  unfold dinsert
  by_cases h : d.any (fun p => p.1 = k)
  · rw [if_pos h]
    intro hh
    rcases List.any_eq_true.1 h with ⟨p, hp, _⟩
    rw [List.map_eq_nil_iff] at hh
    rw [hh] at hp
    cases hp
  · rw [if_neg h]
    simp

/-- Python `{**a, **b}` is empty exactly when both arguments are. -/
theorem dmerge_eq_nil (a b : CDict) : dmerge a b = [] ↔ a = [] ∧ b = [] := by
  induction b generalizing a with
  | nil => simp [dmerge]
  | cons p b' ih =>
      constructor
      · intro h
        rcases (ih (dinsert a p.1 p.2)).1 h with ⟨h1, _⟩
        exact absurd h1 (dinsert_ne_nil a p.1 p.2)
      · rintro ⟨_, h⟩
        cases h

/-- Lookup through a Python `{**a, **b}` merge: `b`'s bindings (unique by
construction in this development) win over `a`'s. -/
theorem dlookup_dmerge (a b : CDict) (hb : (dkeys b).Nodup) (k : Cell) :
    dlookup (dmerge a b) k = oor (dlookup b k) (dlookup a k) := by
  induction b generalizing a with
  | nil => simp [dmerge, dlookup_nil, oor]
  | cons p b' ih =>
      rcases List.nodup_cons.1 hb with ⟨hp, hb'⟩
      have hstep : dmerge a (p :: b') = dmerge (dinsert a p.1 p.2) b' := rfl
      rw [hstep, ih (dinsert a p.1 p.2) hb', dlookup_dinsert, dlookup_cons]
      by_cases hk : p.1 = k
      · subst hk
        rw [if_pos rfl, if_pos rfl]
        have : dlookup b' p.1 = none := by
          apply dlookup_eq_none_of_not_any
          intro h
          exact hp ((any_eq_true_iff_mem_dkeys b' p.1).1 h)
        rw [this]
        rfl
      · rw [if_neg hk, if_neg (fun h => hk h.symm)]

/-- `dinsert` preserves key uniqueness. -/
theorem dinsert_dkeys_nodup (d : CDict) (k v : Cell) (h : (dkeys d).Nodup) :
    (dkeys (dinsert d k v)).Nodup := by
  unfold dinsert
  by_cases hmem : d.any (fun p => p.1 = k)
  · rw [if_pos hmem]
    have : dkeys (d.map (fun p => if p.1 = k then (k, v) else p)) = dkeys d := by
      unfold dkeys
      rw [List.map_map]
      apply List.map_congr_left
      intro p _
      by_cases hp : p.1 = k <;> simp [hp]
    rw [this]
    exact h
  · rw [if_neg hmem]
    unfold dkeys
    rw [List.map_append]
    simp only [List.map_cons, List.map_nil]
    rw [List.nodup_append]
    refine ⟨h, List.nodup_singleton k, ?_⟩
    intro x hx hk
    rcases List.mem_singleton.1 hk with rfl
    exact hmem ((any_eq_true_iff_mem_dkeys d x).2 hx)

/-- Dictionaries built by repeated insertion have unique keys. -/
theorem dictOfPairs_dkeys_nodup (l : List (Cell × Cell)) :
    (dkeys (dictOfPairs l)).Nodup := by
  suffices h : ∀ acc : CDict, (dkeys acc).Nodup → (dkeys (l.foldl (fun acc p => dinsert acc p.1 p.2) acc)).Nodup by
    exact h [] (by simp [dkeys])
  induction l with
  | nil => intro acc hacc; simpa using hacc
  | cons p l' ih =>
      intro acc hacc
      exact ih (dinsert acc p.1 p.2) (dinsert_dkeys_nodup acc p.1 p.2 hacc)

end Camelsp

namespace Camelsp

namespace DE4

/-- Every record the key/value block extraction yields has unique keys. -/
theorem extractKVBlock_rec_nodup (b : Frame) (recs : List CDict)
    (h : extractKVBlock b = .ok recs) :
    ∀ rec ∈ recs, (dkeys rec).Nodup := by
  simp only [extractKVBlock] at h
  split at h
  · split at h
    · cases h
      intro rec hrec
      rcases List.mem_singleton.1 hrec with rfl
      exact dictOfPairs_dkeys_nodup _
    · cases h
      intro rec hrec
      cases hrec
  · cases h

/-- Every record the coordinates block extraction yields has unique keys. -/
theorem coordBlock_rec_nodup (b : Frame) (recs : List CDict)
    (h : coordBlock b = .ok recs) :
    ∀ rec ∈ recs, (dkeys rec).Nodup := by
  simp only [coordBlock] at h
  split at h
  · cases h
  · cases h
    intro rec hrec
    rcases List.mem_map.1 hrec with ⟨r, _, rfl⟩
    exact dictOfPairs_dkeys_nodup _

/-- One loop step preserves key uniqueness of the three dictionaries. -/
theorem processBlock_nodup (v : String) (skip : Bool) (st : PState) (i : Nat)
    (b : Frame) (st' : PState) (h : processBlock v skip st i b = .ok st')
    (hb : (dkeys st.base).Nodup) (hl : (dkeys st.loc).Nodup)
    (hc : (dkeys st.co).Nodup) :
    (dkeys st'.base).Nodup ∧ (dkeys st'.loc).Nodup ∧ (dkeys st'.co).Nodup := by
  match i with
  | 0 =>
      rcases hkv : extractKVBlock b with e | recs
      · rw [processBlock, hkv] at h
        cases h
      · rw [processBlock, hkv] at h
        simp only [bind, Except.bind] at h
        rcases hh : recs.head? with _ | rec
        · rw [hh] at h
          cases h
          exact ⟨hb, hl, hc⟩
        · rw [hh] at h
          cases h
          exact ⟨extractKVBlock_rec_nodup b recs hkv rec (List.mem_of_mem_head? hh), hl, hc⟩
  | 1 =>
      rcases hkv : extractKVBlock b with e | recs
      · rw [processBlock, hkv] at h
        cases h
      · rw [processBlock, hkv] at h
        simp only [bind, Except.bind] at h
        rcases hh : recs.head? with _ | rec
        · rw [hh] at h
          cases h
          exact ⟨hb, hl, hc⟩
        · rw [hh] at h
          cases h
          exact ⟨hb, extractKVBlock_rec_nodup b recs hkv rec (List.mem_of_mem_head? hh), hc⟩
  | 2 =>
      rcases hkv : coordBlock b with e | recs
      · rw [processBlock, hkv] at h
        cases h
      · rw [processBlock, hkv] at h
        simp only [bind, Except.bind] at h
        rcases hh : recs.head? with _ | rec
        · rw [hh] at h
          cases h
          exact ⟨hb, hl, hc⟩
        · rw [hh] at h
          cases h
          exact ⟨hb, hl, coordBlock_rec_nodup b recs hkv rec (List.mem_of_mem_head? hh)⟩
  | 3 =>
      rw [processBlock] at h
      by_cases hskip : skip
      · rw [if_pos hskip] at h
        cases h
        exact ⟨hb, hl, hc⟩
      · rw [if_neg hskip] at h
        rcases hid : st.id? with _ | idv
        · rw [hid] at h
          cases h
          exact ⟨hb, hl, hc⟩
        · rw [hid] at h
          rcases hts : dataBlock v b with e | ts
          · rw [hts] at h
            cases h
          · rw [hts] at h
            simp only [bind, Except.bind] at h
            cases h
            exact ⟨hb, hl, hc⟩
  | (n + 4) =>
      cases h
      exact ⟨hb, hl, hc⟩

/-- The loop preserves key uniqueness of the three dictionaries. -/
theorem processFrom_nodup (v : String) (skip : Bool) :
    ∀ (l : List Frame) (st : PState) (i : Nat) (st' : PState),
    processFrom v skip st i l = .ok st' →
    (dkeys st.base).Nodup → (dkeys st.loc).Nodup → (dkeys st.co).Nodup →
    (dkeys st'.base).Nodup ∧ (dkeys st'.loc).Nodup ∧ (dkeys st'.co).Nodup
  | [], st, i, st', h, hb, hl, hc => by
      rw [processFrom] at h
      cases h
      exact ⟨hb, hl, hc⟩
  | b :: bs, st, i, st', h, hb, hl, hc => by
      rw [processFrom] at h
      rcases hpb : processBlock v skip st i b with e | stm
      · rw [hpb] at h
        cases h
      · rw [hpb] at h
        simp only [bind, Except.bind] at h
        rcases processBlock_nodup v skip st i b stm hpb hb hl hc with ⟨h1, h2, h3⟩
        exact processFrom_nodup v skip bs stm (i + 1) st' h h1 h2 h3

/-- Claim C4: for every grid on which the block loop completes, the
metadata mapping `parse_dirty_dataframe` returns is exactly the Python
merge `{**base, **loc, **co}` of the identity, location and coordinates
records in that order; lookups in the merge are resolved coordinates
first, then location, then identity (later blocks win on every key
collision); and the metadata result is `None` rather than an empty mapping
exactly when all three records are empty. -/
theorem C4_theorem (g : Frame) (v : String) (sd : Bool) (st : PState)
    (h : processBlocks g v sd = .ok st) :
    (parse_dirty_dataframe g v sd =
      .ok (if dmerge (dmerge st.base st.loc) st.co = [] then none
           else some (dmerge (dmerge st.base st.loc) st.co), st.dat)) ∧
    (∀ k, dlookup (dmerge (dmerge st.base st.loc) st.co) k =
      oor (dlookup st.co k) (oor (dlookup st.loc k) (dlookup st.base k))) ∧
    (dmerge (dmerge st.base st.loc) st.co = [] ↔
      st.base = [] ∧ st.loc = [] ∧ st.co = []) := by
  have hnd := processFrom_nodup v sd (blocksOf g) initState 0 st h
    (by simp [initState, dkeys]) (by simp [initState, dkeys]) (by simp [initState, dkeys])
  rcases hnd with ⟨hb, hl, hc⟩
  refine ⟨?_, ?_, ?_⟩
  · rw [parse_dirty_dataframe, h]
    rfl
  · intro k
    rw [dlookup_dmerge _ _ hc, dlookup_dmerge _ _ hl]
  · rw [dmerge_eq_nil, dmerge_eq_nil, and_assoc]

end DE4

/-- A one-block grid: a single key/value row. -/
def oneRowGrid : Frame := ⟨[0, 1], [[.str "a", .str "b"]]⟩

/-- Claim C4, witness: on a concrete one-block grid the returned metadata
is the (non-empty) merged record. -/
theorem C4_witness :
    DE4.parse_dirty_dataframe oneRowGrid "q" true =
      .ok (some [(.str "a", .str "b")], none) := by
  have h := (DE4.C4_theorem oneRowGrid "q" true
    ⟨none, [(.str "a", .str "b")], [], [], none⟩ (by decide)).1
  simpa using h

end Camelsp

namespace Camelsp

namespace DE4

/-- The block loop always iterates at least once: the zip of the cut lists
is never empty. -/
theorem blocksOf_ne_nil (g : Frame) : blocksOf g ≠ [] := by
  rcases h : nullIdx g with _ | ⟨c, cs⟩ <;> simp [blocksOf, blockRanges, h]

/-- A loop step at index `≥ 1` never changes `ID`, and changes `dat` only
at index 3 with data requested and an identifier already resolved. -/
theorem processBlock_step (v : String) (skip : Bool) (st : PState) (i : Nat)
    (b : Frame) (stm : PState) (hi : 1 ≤ i)
    (h : processBlock v skip st i b = .ok stm) :
    stm.id? = st.id? ∧
    (stm.dat = st.dat ∨ (skip = false ∧ st.id? ≠ none ∧ i = 3)) := by
  match i with
  | 0 => exact absurd hi (by omega)
  | 1 =>
      rcases hkv : extractKVBlock b with e | recs
      · rw [processBlock, hkv] at h
        cases h
      · rw [processBlock, hkv] at h
        simp only [bind, Except.bind] at h
        rcases recs with _ | ⟨rec, rt⟩
        · cases h
          exact ⟨rfl, Or.inl rfl⟩
        · cases h
          exact ⟨rfl, Or.inl rfl⟩
  | 2 =>
      rcases hkv : coordBlock b with e | recs
      · rw [processBlock, hkv] at h
        cases h
      · rw [processBlock, hkv] at h
        simp only [bind, Except.bind] at h
        rcases recs with _ | ⟨rec, rt⟩
        · cases h
          exact ⟨rfl, Or.inl rfl⟩
        · cases h
          exact ⟨rfl, Or.inl rfl⟩
  | 3 =>
      rw [processBlock] at h
      by_cases hskip : skip
      · rw [if_pos hskip] at h
        cases h
        exact ⟨rfl, Or.inl rfl⟩
      · rw [if_neg hskip] at h
        rcases hid : st.id? with _ | idv
        · rw [hid] at h
          cases h
          exact ⟨hid, Or.inl rfl⟩
        · rw [hid] at h
          rcases hts : dataBlock v b with e | ts
          · rw [hts] at h
            cases h
          · rw [hts] at h
            simp only [bind, Except.bind] at h
            cases h
            refine ⟨rfl, Or.inr ⟨?_, ?_, rfl⟩⟩
            · cases skip
              · rfl
              · exact absurd rfl hskip
            · simp
  | (n + 4) =>
      cases h
      exact ⟨rfl, Or.inl rfl⟩

/-- Running the loop from any index `≥ 1` never changes `ID`, and can set
`dat` only if data was requested, an identifier was already resolved, and
index 3 lies in the processed range. -/
theorem processFrom_tail (v : String) (skip : Bool) :
    ∀ (l : List Frame) (st : PState) (i : Nat) (st' : PState), 1 ≤ i →
    processFrom v skip st i l = .ok st' →
    st'.id? = st.id? ∧
    (st'.dat ≠ none → st.dat ≠ none ∨
      (skip = false ∧ st.id? ≠ none ∧ ∃ j, j < l.length ∧ i + j = 3))
  | [], st, i, st', hi, h => by
      rw [processFrom] at h
      cases h
      exact ⟨rfl, fun hd => Or.inl hd⟩
  | b :: bs, st, i, st', hi, h => by
      rw [processFrom] at h
      rcases hpb : processBlock v skip st i b with e | stm
      · rw [hpb] at h
        cases h
      · rw [hpb] at h
        simp only [bind, Except.bind] at h
        rcases processBlock_step v skip st i b stm hi hpb with ⟨hid, hdat⟩
        rcases processFrom_tail v skip bs stm (i + 1) st' (by omega) h with ⟨hid', hdat'⟩
        refine ⟨hid'.trans hid, ?_⟩
        intro hne
        rcases hdat' hne with hm | ⟨hskip, hidne, j, hj, hij⟩
        · rcases hdat with he | ⟨hskip, hidne, hi3⟩
          · exact Or.inl (he ▸ hm)
          · exact Or.inr ⟨hskip, hidne, 0, by simp, by omega⟩
        · exact Or.inr ⟨hskip, by rw [← hid]; exact hidne, j + 1,
            by simpa using Nat.succ_lt_succ hj, by omega⟩

/-- After processing block 0 from the initial state, no series exists yet
and `ID` is exactly what the first block's record yields for key `'ID'`. -/
theorem processBlock0 (v : String) (skip : Bool) (b : Frame) (st1 : PState)
    (h : processBlock v skip initState 0 b = .ok st1) :
    st1.dat = none ∧
    st1.id? = (match extractKVBlock b with
      | .ok (rec :: _) => (dlookup rec (.str "ID")).map cellToStr
      | _ => none) := by
  rcases hkv : extractKVBlock b with e | recs
  · rw [processBlock, hkv] at h
    cases h
  · rw [processBlock, hkv] at h
    simp only [bind, Except.bind] at h
    rcases recs with _ | ⟨rec, rt⟩
    · cases h
      exact ⟨rfl, rfl⟩
    · simp only [List.head?] at h
      rcases hlk : dlookup rec (.str "ID") with _ | w
      · rw [hlk] at h
        cases h
        simp [hlk, initState]
      · rw [hlk] at h
        cases h
        simp [hlk, initState]

/-- Claim C5: `extract` produces a TimeSeries only when data extraction was
requested (`skip_data = false`), an identifier was resolved from block 0,
and a fourth (data) block exists; contrapositively, when block 0 yields no
identifier or the data block is absent, the series result is absent. -/
theorem C5_theorem (g : Frame) (v : String) (sd : Bool)
    (h : datOf (parse_dirty_dataframe g v sd) ≠ none) :
    sd = false ∧ block0Id g ≠ none ∧ 4 ≤ (blocksOf g).length := by
  rcases hp : processBlocks g v sd with e | st
  · rw [parse_dirty_dataframe, hp] at h
    simp [bind, Except.bind, datOf] at h
  · have hdat : st.dat ≠ none := by
      rw [parse_dirty_dataframe, hp] at h
      simpa [bind, Except.bind, datOf] using h
    rcases hbs : blocksOf g with _ | ⟨b0, rest⟩
    · exact absurd hbs (blocksOf_ne_nil g)
    · rw [processBlocks, hbs, processFrom] at hp
      rcases hpb : processBlock v sd initState 0 b0 with e | st1
      · rw [hpb] at hp
        cases hp
      · rw [hpb] at hp
        simp only [bind, Except.bind] at hp
        rcases processBlock0 v sd b0 st1 hpb with ⟨hd1, hid1⟩
        rcases processFrom_tail v sd rest st1 1 st (by omega) hp with ⟨_, hdat'⟩
        rcases hdat' hdat with hm | ⟨hskip, hidne, j, hj, hij⟩
        · exact absurd hd1 hm
        · refine ⟨hskip, ?_, ?_⟩
          · simp only [block0Id, hbs]
            rw [← hid1]
            exact hidne
          · simp only [List.length_cons]
            omega

end DE4

/-- Claim C5, witness: on the concrete four-block grid, a series was
produced, data was requested, an identifier was resolved, and the grid has
four blocks. -/
theorem C5_witness :
    false = false ∧ DE4.block0Id brandGrid ≠ none ∧ 4 ≤ (blocksOf brandGrid).length :=
  DE4.C5_theorem brandGrid "q" false (by decide)

end Camelsp

namespace Camelsp

/-- `mapE` succeeds when every element succeeds. -/
theorem mapE_ok_of_all {α β : Type} (f : α → Except Unit β) :
    ∀ (l : List α), (∀ a ∈ l, isOkE (f a) = true) →
    ∃ ys, mapE f l = .ok ys
  | [], _ => ⟨[], rfl⟩
  | a :: l, h => by
      rcases hfa : f a with e | b
      · have := h a (by simp)
        rw [hfa] at this
        cases this
      · rcases mapE_ok_of_all f l (fun x hx => h x (by simp [hx])) with ⟨ys, hys⟩
        exact ⟨b :: ys, by rw [mapE, hfa]; simp only [bind, Except.bind]; rw [hys]⟩

/-- `mapE` preserves length. -/
theorem mapE_length {α β : Type} (f : α → Except Unit β) :
    ∀ (l : List α) (ys : List β), mapE f l = .ok ys → ys.length = l.length
  | [], ys, h => by
      cases h
      rfl
  | a :: l, ys, h => by
      rw [mapE] at h
      rcases hfa : f a with e | b
      · rw [hfa] at h
        cases h
      · rw [hfa] at h
        simp only [bind, Except.bind] at h
        rcases hys : mapE f l with e | zs
        · rw [hys] at h
          cases h
        · rw [hys] at h
          cases h
          simpa using mapE_length f l zs hys

namespace DE4

/-- Date cells the data branch converts without raising. -/
def okDateB : Cell → Bool
  | .date _ _ _ => true
  | .str _ => true
  | _ => false

/-- Value cells `astype(float)` converts without raising. -/
def okValB : Cell → Bool
  | .num _ => true
  | .empty => true
  | .str s => (pyFloat s).isSome
  | .date _ _ _ => false

/-- Flag cells the verified-marker comparison accepts without raising. -/
def okFlagB : Cell → Bool
  | .str _ => true
  | _ => false

theorem dateOfCell_ok (c : Cell) (h : okDateB c = true) :
    isOkE (dateOfCell c) = true := by
  cases c <;> first | rfl | cases h

theorem floatOfCell_ok (c : Cell) (h : okValB c = true) :
    isOkE (floatOfCell c) = true := by
  cases c with
  | str s =>
      rcases hp : pyFloat s with _ | d
      · rw [okValB, hp] at h
        cases h
      · simp [floatOfCell, hp, isOkE]
  | _ => first | rfl | cases h

theorem flagOfCell_ok (c : Cell) (h : okFlagB c = true) :
    isOkE (flagOfCell c) = true := by
  cases c <;> first | rfl | cases h

/-- A data block is well-shaped when, after the two `dropna` calls, a
header row remains, at least four columns survive, and every data row has
convertible date, value and flag cells. -/
def dataGoodB (b : Frame) : Bool :=
  match (dropNACols (dropNARows b)).rows with
  | [] => false
  | _ :: rest =>
      decide (4 ≤ (dropNACols (dropNARows b)).cols.length) &&
      rest.all (fun r => okDateB (cellAt r 0) && okValB (cellAt r 1) && okFlagB (cellAt r 3))

/-- On a well-shaped data block, the data branch does not raise. -/
theorem dataBlock_ok (v : String) (b : Frame) (h : dataGoodB b = true) :
    ∃ ts, dataBlock v b = .ok ts := by
  rw [dataGoodB] at h
  rcases hrows : (dropNACols (dropNARows b)).rows with _ | ⟨hdr, rest⟩
  · rw [hrows] at h
    cases h
  · rw [hrows] at h
    rcases Bool.and_eq_true_iff.1 h with ⟨hcols, hall⟩
    have hall' := List.all_eq_true.1 hall
    rcases mapE_ok_of_all (fun r => dateOfCell (cellAt r 0)) rest
        (fun r hr => dateOfCell_ok _ (Bool.and_eq_true_iff.1
          (Bool.and_eq_true_iff.1 (hall' r hr)).1).1) with ⟨ds, hds⟩
    rcases mapE_ok_of_all (fun r => floatOfCell (cellAt r 1)) rest
        (fun r hr => floatOfCell_ok _ (Bool.and_eq_true_iff.1
          (Bool.and_eq_true_iff.1 (hall' r hr)).1).2) with ⟨vs, hvs⟩
    rcases mapE_ok_of_all (fun r => flagOfCell (cellAt r 3)) rest
        (fun r hr => flagOfCell_ok _ (Bool.and_eq_true_iff.1 (hall' r hr)).2)
      with ⟨fs, hfs⟩
    refine ⟨⟨pyLower v, (ds.zip (vs.zip fs)).map (fun p => ⟨p.1, p.2.1, p.2.2⟩)⟩, ?_⟩
    simp only [dataBlock, hrows]
    rw [if_neg (by have := of_decide_eq_true hcols; omega), hds]
    simp only [bind, Except.bind]
    rw [hvs, hfs]

end DE4

end Camelsp

namespace Camelsp

theorem cellAt_nil (j : Nat) : cellAt [] j = .empty := by
  cases j <;> rfl

theorem cellAt_take2_zero (r : List Cell) : cellAt (r.take 2) 0 = cellAt r 0 := by
  cases r <;> rfl

theorem getD_take2_zero (l : List Nat) : (l.take 2).getD 0 0 = l.getD 0 0 := by
  cases l <;> rfl

theorem range_getD_zero (n : Nat) (h : 1 ≤ n) : (List.range n).getD 0 0 = 0 := by
  cases n with
  | zero => omega
  | succ m => simp [List.range_succ_eq_map]

/-- An `Except` value is ok exactly when it equals some `.ok`. -/
theorem isOkE_iff {α : Type} (e : Except Unit α) :
    isOkE e = true ↔ ∃ x, e = .ok x := by
  cases e with
  | error u => simp [isOkE]
  | ok x => simp [isOkE]

/-- A row fails the all-empty test exactly when some position below the
width holds a value. -/
theorem not_nullRow_iff (w : Nat) (r : List Cell) :
    (¬ isNullRow w r = true) ↔ ∃ j, j < w ∧ cellAt r j ≠ .empty := by
  simp [isNullRow, List.all_eq_true, List.mem_range]

/-- Membership in the surviving column positions. -/
theorem mem_keptCols_iff (f : Frame) (j : Nat) :
    j ∈ keptCols f ↔
      j < f.cols.length ∧ f.rows.any (fun r => cellAt r j ≠ .empty) = true := by
  simp [keptCols, List.mem_filter, List.mem_range]

/-- A row with a value at a surviving position stays non-empty after the
columns are rematerialized to the surviving positions. -/
theorem map_cellAt_pos : ∀ (keep : List Nat) (r : List Cell) (j : Nat),
    j ∈ keep → cellAt r j ≠ .empty →
    ∃ jj, jj < keep.length ∧ cellAt (keep.map (cellAt r)) jj ≠ .empty
  | [], _, _, hj, _ => absurd hj (by simp)
  | k :: ks, r, j, hj, hc => by
      rcases List.mem_cons.1 hj with rfl | hj'
      · exact ⟨0, by simp, hc⟩
      · rcases map_cellAt_pos ks r j hj' hc with ⟨jj, hjj, hcc⟩
        exact ⟨jj + 1, by simpa using hjj, hcc⟩

namespace DE4

/-- When the first column of a block holds some value, the key/value
extraction of blocks 0/1 does not raise. -/
theorem extractKVBlock_ok (b : Frame) (hcols : b.cols = List.range b.cols.length)
    (hrows : ∀ r ∈ b.rows, r.length = b.cols.length)
    (hgood : b.rows.any (fun r => cellAt r 0 ≠ .empty) = true) :
    isOkE (extractKVBlock b) = true := by
  rcases List.any_eq_true.1 hgood with ⟨r, hr, hcell⟩
  have hcell' : cellAt r 0 ≠ .empty := of_decide_eq_true hcell
  have hrne : r ≠ [] := by
    intro hnil
    exact hcell' (by rw [hnil, cellAt_nil])
  have hlen : 1 ≤ b.cols.length := by
    rw [← hrows r hr]
    exact List.length_pos.2 hrne
  have h0mem : 0 ∈ keptCols (takeCols2 b) := by
    rw [mem_keptCols_iff]
    constructor
    · simp only [takeCols2, List.length_take]
      omega
    · apply List.any_eq_true.2
      refine ⟨r.take 2, List.mem_map_of_mem _ hr, ?_⟩
      rw [cellAt_take2_zero]
      exact decide_eq_true hcell'
  have h0cols : (0 : Nat) ∈ (dropNACols (takeCols2 b)).cols := by
    apply List.mem_map.2
    refine ⟨0, h0mem, ?_⟩
    show (takeCols2 b).cols.getD 0 0 = 0
    rw [show (takeCols2 b).cols = b.cols.take 2 from rfl, getD_take2_zero, hcols,
      range_getD_zero _ (by simpa using hlen)]
  simp only [extractKVBlock]
  rw [if_pos h0cols]
  by_cases h1 : (1 : Nat) ∈ (dropNACols (takeCols2 b)).cols
  · rw [if_pos h1]
    rfl
  · rw [if_neg h1]
    rfl

/-- When the block holds any value at all, the coordinates extraction of
block 2 does not raise. -/
theorem coordBlock_ok (b : Frame)
    (hgood : b.rows.any (fun r => ¬ isNullRow b.cols.length r) = true) :
    isOkE (coordBlock b) = true := by
  rcases List.any_eq_true.1 hgood with ⟨r, hr, hnnb⟩
  have hnn : ¬ isNullRow b.cols.length r = true := of_decide_eq_true hnnb
  rcases (not_nullRow_iff _ _).1 hnn with ⟨j, hj, hc⟩
  have hjmem : j ∈ keptCols b :=
    (mem_keptCols_iff b j).2 ⟨hj, List.any_eq_true.2 ⟨r, hr, decide_eq_true hc⟩⟩
  have hmr : (keptCols b).map (cellAt r) ∈ (dropNACols b).rows :=
    List.mem_map_of_mem _ hr
  have hmrnn : ¬ isNullRow (dropNACols b).cols.length ((keptCols b).map (cellAt r)) = true := by
    rcases map_cellAt_pos (keptCols b) r j hjmem hc with ⟨jj, hjj, hcc⟩
    apply (not_nullRow_iff _ _).2
    refine ⟨jj, ?_, hcc⟩
    simpa [dropNACols] using hjj
  have hmem2 : (keptCols b).map (cellAt r) ∈ (dropNARows (dropNACols b)).rows := by
    simp only [dropNARows]
    exact List.mem_filter.2 ⟨hmr, decide_eq_true hmrnn⟩
  have hne : (dropNARows (dropNACols b)).rows ≠ [] := List.ne_nil_of_mem hmem2
  simp only [coordBlock]
  rcases hb2 : (dropNARows (dropNACols b)).rows with _ | ⟨hdr, rest⟩
  · exact absurd hb2 hne
  · rfl

end DE4

end Camelsp

namespace Camelsp

namespace DE4

/-- Well-shapedness of the block at loop index `i`: blocks 0/1 need a
value somewhere in their first column, block 2 needs any value, block 3
needs a well-shaped data block, later blocks are ignored. -/
def goodBlockB (i : Nat) (b : Frame) : Bool :=
  match i with
  | 0 => b.rows.any (fun r => cellAt r 0 ≠ .empty)
  | 1 => b.rows.any (fun r => cellAt r 0 ≠ .empty)
  | 2 => b.rows.any (fun r => ¬ isNullRow b.cols.length r)
  | 3 => dataGoodB b
  | _ => true

/-- A grid with positional column labels, rows of the declared width, and
every block well-shaped for its loop index. -/
def GoodGrid (g : Frame) : Prop :=
  g.cols = List.range g.cols.length ∧
  (∀ r ∈ g.rows, r.length = g.cols.length) ∧
  ∀ p ∈ (blocksOf g).enum, goodBlockB p.1 p.2 = true

instance (g : Frame) : Decidable (GoodGrid g) := by
  unfold GoodGrid
  infer_instance

/-- On a well-shaped block, one loop step never raises. -/
theorem processBlock_ok (v : String) (skip : Bool) (st : PState) (i : Nat)
    (b : Frame) (hcols : b.cols = List.range b.cols.length)
    (hrows : ∀ r ∈ b.rows, r.length = b.cols.length)
    (hgood : goodBlockB i b = true) :
    isOkE (processBlock v skip st i b) = true := by
  match i with
  | 0 =>
      rcases (isOkE_iff _).1 (extractKVBlock_ok b hcols hrows hgood) with ⟨recs, hkv⟩
      rw [processBlock, hkv]
      simp only [bind, Except.bind]
      rcases recs with _ | ⟨rec, rt⟩ <;> rfl
  | 1 =>
      rcases (isOkE_iff _).1 (extractKVBlock_ok b hcols hrows hgood) with ⟨recs, hkv⟩
      rw [processBlock, hkv]
      simp only [bind, Except.bind]
      rcases recs with _ | ⟨rec, rt⟩ <;> rfl
  | 2 =>
      rcases (isOkE_iff _).1 (coordBlock_ok b hgood) with ⟨recs, hkv⟩
      rw [processBlock, hkv]
      simp only [bind, Except.bind]
      rcases recs with _ | ⟨rec, rt⟩ <;> rfl
  | 3 =>
      rw [processBlock]
      by_cases hskip : skip
      · rw [if_pos hskip]
        rfl
      · rw [if_neg hskip]
        rcases hid : st.id? with _ | idv
        · rfl
        · rcases dataBlock_ok v b hgood with ⟨ts, hts⟩
          rw [hts]
          rfl
  | (n + 4) => rfl

/-- When every remaining block is well-shaped for its index, the loop
never raises. -/
theorem processFrom_ok (v : String) (skip : Bool) :
    ∀ (l : List Frame) (st : PState) (i : Nat),
    (∀ b ∈ l, b.cols = List.range b.cols.length ∧
      ∀ r ∈ b.rows, r.length = b.cols.length) →
    (∀ p ∈ l.enumFrom i, goodBlockB p.1 p.2 = true) →
    isOkE (processFrom v skip st i l) = true
  | [], _, _, _, _ => rfl
  | b :: bs, st, i, hwf, hgood => by
      have hb := hwf b (by simp)
      have hgb : goodBlockB i b = true := hgood (i, b) (by simp [List.enumFrom])
      rcases (isOkE_iff _).1 (processBlock_ok v skip st i b hb.1 hb.2 hgb)
        with ⟨st1, hst1⟩
      rw [processFrom, hst1]
      simp only [bind, Except.bind]
      exact processFrom_ok v skip bs st1 (i + 1)
        (fun b' hb' => hwf b' (by simp [hb']))
        (fun p hp => hgood p (by simp [List.enumFrom, hp]))

/-- Blocks inherit the grid's labels and row widths. -/
theorem blocksOf_wf (g : Frame) (hcols : g.cols = List.range g.cols.length)
    (hrows : ∀ r ∈ g.rows, r.length = g.cols.length) :
    ∀ b ∈ blocksOf g, b.cols = List.range b.cols.length ∧
      ∀ r ∈ b.rows, r.length = b.cols.length := by
  intro b hb
  rcases List.mem_map.1 hb with ⟨p, _, rfl⟩
  refine ⟨hcols, ?_⟩
  intro r hr
  exact hrows r (List.mem_of_mem_drop (List.mem_of_mem_take hr))

/-- Claim C8, amended: on every well-shaped grid (each identity/location
block holds a first-column value, the coordinates block holds some value,
and a data block, when present, cleans to at least four columns of
convertible cells) `extract` returns a result; but it is not total — see
the counterexample for a data block with a non-numeric value cell. -/
theorem C8_theorem (g : Frame) (v : String) (skip : Bool) (h : GoodGrid g) :
    isOkE (parse_dirty_dataframe g v skip) = true := by
  rcases h with ⟨hcols, hrows, hgood⟩
  have hrun := processFrom_ok v skip (blocksOf g) initState 0
    (blocksOf_wf g hcols hrows) hgood
  rcases (isOkE_iff _).1 hrun with ⟨st, hst⟩
  have hpb : processBlocks g v skip = .ok st := hst
  rw [parse_dirty_dataframe, hpb]
  rfl

end DE4

/-- The example grid with a non-numeric text value cell in the data row. -/
def badValGrid : Frame := ⟨[0, 1, 2, 3], [
  [.str "ID", .str "4711", .empty, .empty],
  [.empty, .empty, .empty, .empty],
  [.str "Ort", .str "Hier", .empty, .empty],
  [.empty, .empty, .empty, .empty],
  [.str "crs", .str "x", .str "y", .empty],
  [.str "25833", .num ⟨1, 0⟩, .num ⟨2, 0⟩, .empty],
  [.empty, .empty, .empty, .empty],
  [.str "date", .str "value", .str "status", .str "extra"],
  [.str "2020-01-01", .str "abc", .str "geprüft", .str "x"]]⟩

/-- Claim C8, counterexample: a data block whose value cell is the
non-numeric text `abc` makes `extract` raise (`astype(float)` fails)
instead of downgrading to a diagnostic and returning a result. -/
theorem C8_counterexample :
    DE4.parse_dirty_dataframe badValGrid "q" false = .error () := by
  decide

/-- Claim C8, witness: the amended totality statement at the concrete
well-shaped grid. -/
theorem C8_witness :
    isOkE (DE4.parse_dirty_dataframe brandGrid "q" false) = true :=
  DE4.C8_theorem brandGrid "q" false (by decide)

end Camelsp

namespace Camelsp

namespace DE2

/-- Any entry of a dictionary after `m[k] = v` either carries the new
value or was already present. -/
theorem mem_sinsert (m : SDict) (k v : String) (p : String × String)
    (h : p ∈ sinsert m k v) : p.2 = v ∨ p ∈ m := by
  unfold sinsert at h
  by_cases hmem : m.any (fun q => q.1 = k)
  · rw [if_pos hmem] at h
    rcases List.mem_map.1 h with ⟨q, hq, hqe⟩
    by_cases hqk : q.1 = k
    · rw [if_pos hqk] at hqe
      exact Or.inl (by rw [← hqe])
    · rw [if_neg hqk] at hqe
      exact Or.inr (hqe ▸ hq)
  · rw [if_neg hmem] at h
    rcases List.mem_append.1 h with h' | h'
    · exact Or.inr h'
    · rcases List.mem_singleton.1 h' with rfl
      exact Or.inl rfl

/-- Every value of the filename mapping is a member name of the zip. -/
theorem fmap_values_mem (names : List String) :
    ∀ p ∈ get_filename_mapping names, p.2 ∈ names := by
  suffices h : ∀ (l : List String) (acc : SDict) (S : List String),
      (∀ p ∈ acc, p.2 ∈ S) → (∀ f ∈ l, f ∈ S) →
      ∀ p ∈ l.foldl (fun m f => sinsert m (idOnly f) f) acc, p.2 ∈ S by
    exact h names [] names (by simp) (fun f hf => hf)
  intro l
  induction l with
  | nil => intro acc S hacc _ p hp; exact hacc p hp
  | cons f l' ih =>
      intro acc S hacc hl p hp
      refine ih (sinsert acc (idOnly f) f) S ?_ (fun x hx => hl x (by simp [hx])) p hp
      intro q hq
      rcases mem_sinsert acc (idOnly f) f q hq with h' | h'
      · rw [h']
        exact hl f (by simp)
      · exact hacc q h'

/-- A successful string-dictionary lookup exhibits a matching entry. -/
theorem slookup_mem (m : SDict) (k val : String) (h : slookup m k = some val) :
    ∃ p ∈ m, p.2 = val := by
  unfold slookup at h
  rcases hf : m.find? (fun p => p.1 = k) with _ | p
  · rw [hf] at h
    cases h
  · rw [hf] at h
    cases h
    exact ⟨p, List.mem_of_find?_eq_some hf, rfl⟩

/-- Claim C9: identifier resolution accepts an integer or its string form;
it matches the requested name against the mapping's values (full member
names) and then its keys (short ids without extension); when the name
resolves to neither, the outcome is governed by the per-call `not_exists`
policy, which defaults to raising, and under a non-raise policy
`extract_file` returns the empty `date / variable / flag` frame. -/
theorem C9_theorem (z : Zip) (i : Int) (s v pol : String) :
    (get_file_from_zip z (.inr i) pol = get_file_from_zip z (.inl (intToStr i)) pol) ∧
    (s ∈ (get_filename_mapping (zipNames z)).map (·.2) →
      get_file_from_zip z (.inl s) pol = .ok (some (contentOf z s))) ∧
    (∀ f, s ∉ (get_filename_mapping (zipNames z)).map (·.2) →
      slookup (get_filename_mapping (zipNames z)) s = some f →
      get_file_from_zip z (.inl s) pol = .ok (some (contentOf z f))) ∧
    (s ∉ zipNames z → slookup (get_filename_mapping (zipNames z)) s = none →
      get_file_from_zip_default z (.inl s) = .error ()) ∧
    (s ∉ zipNames z → slookup (get_filename_mapping (zipNames z)) s = none →
      pol ≠ "raise" → extract_file z (.inl s) v pol = .ok (emptyTS2 v, [])) := by
  have hvals : ∀ t : String, t ∈ (get_filename_mapping (zipNames z)).map (·.2) →
      t ∈ zipNames z := by
    intro t ht
    rcases List.mem_map.1 ht with ⟨p, hp, rfl⟩
    exact fmap_values_mem (zipNames z) p hp
  refine ⟨rfl, ?_, ?_, ?_, ?_⟩
  · intro hv
    simp only [get_file_from_zip, strOfId]
    rw [if_pos hv, if_pos (hvals s hv)]
  · intro f hnv hlk
    have hf : f ∈ zipNames z := by
      rcases slookup_mem _ _ _ hlk with ⟨p, hp, rfl⟩
      exact fmap_values_mem (zipNames z) p hp
    simp only [get_file_from_zip, strOfId]
    rw [if_neg hnv, hlk, if_pos hf]
  · intro hnn hlk
    have hnv : s ∉ (get_filename_mapping (zipNames z)).map (·.2) :=
      fun hv => hnn (hvals s hv)
    simp only [get_file_from_zip_default, get_file_from_zip, strOfId]
    rw [if_neg hnv, hlk, if_neg hnn]
    simp
  · intro hnn hlk hpol
    have hnv : s ∉ (get_filename_mapping (zipNames z)).map (·.2) :=
      fun hv => hnn (hvals s hv)
    have hg : get_file_from_zip z (.inl s) pol = .ok none := by
      simp only [get_file_from_zip, strOfId]
      rw [if_neg hnv, hlk, if_neg hnn, if_neg hpol]
    rw [extract_file, hg]
    rfl

end DE2

/-- A concrete two-member zip: short ids `7` and `9`. -/
def zd : DE2.Zip := [("a/7.csv", ["l1"]), ("b/9.csv", ["l2"])]

/-- Claim C9, witness: resolution by full member name, by short id, the
raising default on an unknown id, and the empty frame under the non-raise
policy, all on the concrete zip. -/
theorem C9_witness :
    (DE2.get_file_from_zip zd (.inl "a/7.csv") "x" = .ok (some ["l1"])) ∧
    (DE2.get_file_from_zip zd (.inl "9") "x" = .ok (some ["l2"])) ∧
    (DE2.get_file_from_zip_default zd (.inl "nope") = .error ()) ∧
    (DE2.extract_file zd (.inl "nope") "q" "none" = .ok (DE2.emptyTS2 "q", [])) := by
  refine ⟨?_, ?_, ?_, ?_⟩
  · exact (DE2.C9_theorem zd 0 "a/7.csv" "q" "x").2.1 (by decide)
  · exact (DE2.C9_theorem zd 0 "9" "q" "x").2.2.1 "b/9.csv" (by decide) (by decide)
  · exact (DE2.C9_theorem zd 0 "nope" "q" "x").2.2.2.1 (by decide) (by decide)
  · exact (DE2.C9_theorem zd 0 "nope" "q" "none").2.2.2.2 (by decide) (by decide)
      (by decide)

/-- `mapE` of a function that yields `none` on every element. -/
theorem mapE_const_none {α β : Type} (f : α → Except Unit (Option β)) :
    ∀ (l : List α), (∀ a ∈ l, f a = .ok none) →
    mapE f l = .ok (l.map (fun _ => none))
  | [], _ => rfl
  | a :: l, h => by
      rw [mapE, h a (by simp)]
      simp only [bind, Except.bind]
      rw [mapE_const_none f l (fun x hx => h x (by simp [hx]))]
      rfl

namespace DEF

/-- Claim C10: for every existing station file whose value column converts
to `NaN` in every row, `extract_file` returns the empty `date/q/flag`
frame with zero rows — the flag derivation (which would raise on the
unconstrained flag cells) is never reached. -/
theorem C10_theorem (d : Dir) (nr : DE2.IdArg) (rows : List RowF)
    (hfind : lookupFile d (cleanId (DE2.strOfId nr)) = some rows)
    (hq : ∀ r ∈ rows, DE4.floatOfCell r.qC = .ok none) :
    extract_file d nr = .ok emptyTSf := by
  simp only [extract_file, hfind]
  rw [mapE_const_none (fun r => DE4.floatOfCell r.qC) rows hq]
  simp only [bind, Except.bind]
  rw [if_pos (by simp [List.all_eq_true])]

end DEF

/-- A concrete data directory: station `123` with one row whose value and
flag cells are both missing. -/
def dW : DEF.Dir := [("123", [⟨.str "01.01.2020", .empty, .empty⟩])]

/-- Claim C10, witness: the dotted id `12.3` is cleaned to `123`, the file
is found, its value column is all-`NaN`, and the result is the empty frame
even though the `NaN` flag cell would make the flag derivation raise. -/
theorem C10_witness : DEF.extract_file dW (.inl "12.3") = .ok DEF.emptyTSf :=
  DEF.C10_theorem dW (.inl "12.3") [⟨.str "01.01.2020", .empty, .empty⟩]
    (by decide) (by decide)

end Camelsp

namespace Camelsp

namespace DE2

/-- The fault test raises on a blank line (no second field). -/
theorem lineFaulty_blank : lineFaulty "" = .error () := rfl

/-- The fallback's zip-and-filter over the computed fault flags keeps
exactly the lines whose fault test yields `false`. -/
theorem kept_eq_spec : ∀ (l : List String) (ys : List Bool),
    mapE lineFaulty l = .ok ys →
    (l.zip ys).filterMap (fun p => if p.2 then none else some p.1)
      = l.filter (fun x => lineFaulty x = .ok false)
  | [], ys, h => by
      cases h
      rfl
  | a :: l, ys, h => by
      rw [mapE] at h
      rcases hfa : lineFaulty a with e | b
      · rw [hfa] at h
        cases h
      · rw [hfa] at h
        simp only [bind, Except.bind] at h
        rcases hml : mapE lineFaulty l with e | zs
        · rw [hml] at h
          cases h
        · rw [hml] at h
          cases h
          have ih := kept_eq_spec l zs hml
          cases b <;>
            simp [List.zip_cons_cons, List.filterMap_cons, List.filter_cons, hfa, ih]

/-- The reported positions, computed from the fault flags, are exactly the
offsets of the lines whose fault test yields `true`. -/
theorem poss_eq_spec : ∀ (l : List String) (ys : List Bool) (k : Nat),
    mapE lineFaulty l = .ok ys →
    (ys.enumFrom k).filterMap (fun p => if p.2 then some (p.1 + 8) else none)
      = (l.enumFrom k).filterMap
          (fun p => if lineFaulty p.2 = .ok true then some (p.1 + 8) else none)
  | [], ys, k, h => by
      cases h
      rfl
  | a :: l, ys, k, h => by
      rw [mapE] at h
      rcases hfa : lineFaulty a with e | b
      · rw [hfa] at h
        cases h
      · rw [hfa] at h
        simp only [bind, Except.bind] at h
        rcases hml : mapE lineFaulty l with e | zs
        · rw [hml] at h
          cases h
        · rw [hml] at h
          cases h
          have ih := poss_eq_spec l zs (k + 1) hml
          cases b <;> simp [List.enumFrom, List.filterMap_cons, hfa, ih]

/-- Row count of a successful csv read: one row per non-blank line. -/
theorem readCsv_rows_length (lines : List String) (k : Nat) (raw : Csv)
    (h : readCsv lines k = .ok raw) :
    raw.rows.length = ((lines.drop k).filter (fun l => l ≠ "")).length := by
  simp only [readCsv] at h
  rcases hls : (lines.drop k).filter (fun l => l ≠ "") with _ | ⟨l0, lt⟩
  · rw [hls] at h
    cases h
  · simp only [hls] at h
    by_cases hany : ((l0 :: lt).any fun l =>
        decide ((pySplit l0 ' ').length < (pySplit l ' ').length)) = true
    · rw [if_pos hany] at h
      cases h
    · rw [if_neg hany] at h
      cases h
      simp

/-- The kept lines are all non-blank (a blank line would have failed the
fault test), so re-reading filters nothing. -/
theorem keptSpec_filter_blank (lines : List String) :
    (keptLinesSpec lines).filter (fun l => l ≠ "") = keptLinesSpec lines := by
  apply List.filter_eq_self.2
  intro l hl
  have hok : lineFaulty l = .ok false :=
    of_decide_eq_true (List.mem_filter.1 hl).2
  apply decide_eq_true
  intro hblank
  rw [hblank, lineFaulty_blank] at hok
  cases hok

end DE2

end Camelsp

namespace Camelsp

namespace DE2

/-- Claim C6: when the strict parse fails with a `ParserError`, the
per-line fault test succeeds on every data line, and the re-parse of the
kept lines succeeds with the canonical four columns and parseable
timestamps, then `extract_file` returns one row per kept line (every
negative-value line excluded) together with exactly one diagnostic whose
positions are the 0-based data indices of the negative lines offset by the
8 header lines into original-file line numbers. -/
theorem C6_theorem (z : Zip) (nr : IdArg) (v pol : String)
    (lines : List String) (raw2 : Csv) (fl : List Bool)
    (h1 : get_file_from_zip z nr pol = .ok (some lines))
    (h2 : readCsv lines 8 = .error .parserError)
    (h3 : mapE lineFaulty (lines.drop 8) = .ok fl)
    (h4 : readCsv (keptLinesSpec lines) 0 = .ok raw2)
    (h5 : raw2.ncols = 4)
    (h6 : ∀ r ∈ raw2.rows, isOkE (ymdOfCell (cellAt r 0)) = true) :
    ∃ obs : List Obs2,
      extract_file z nr v pol =
        .ok (⟨["date", pyLower v, "flag"], obs⟩,
             [Diag.faultyRows (strOfId nr) (faultyPositionsSpec lines)]) ∧
      obs.length = (keptLinesSpec lines).length := by
  have hrow : ∀ r ∈ raw2.rows, isOkE ((fun r => do
      let d ← ymdOfCell (cellAt r 0)
      Except.ok (⟨d, cellAt r 1, none⟩ : Obs2)) r) = true := by
    intro r hr
    rcases (isOkE_iff _).1 (h6 r hr) with ⟨d, hd⟩
    simp [hd, bind, Except.bind, isOkE]
  rcases mapE_ok_of_all _ raw2.rows hrow with ⟨obs, hobs⟩
  have hlen : obs.length = (keptLinesSpec lines).length := by
    have h1l := mapE_length _ raw2.rows obs hobs
    have h2l := readCsv_rows_length (keptLinesSpec lines) 0 raw2 h4
    rw [h1l, h2l, List.drop_zero, keptSpec_filter_blank]
  have hk : ((lines.drop 8).zip fl).filterMap
      (fun p => if p.2 then none else some p.1) = keptLinesSpec lines :=
    kept_eq_spec (lines.drop 8) fl h3
  have hpos : (fl.enum).filterMap (fun p => if p.2 then some (p.1 + 8) else none)
      = faultyPositionsSpec lines := poss_eq_spec (lines.drop 8) fl 0 h3
  refine ⟨obs, ?_, hlen⟩
  simp only [extract_file, h1, bind, Except.bind, h2, h3, hk, h4]
  rw [hpos]
  obtain ⟨nc, rrows⟩ := raw2
  simp only at h5
  subst h5
  simp only [buildTS]
  norm_num
  simp only at hobs
  rw [hobs]
  simp only [bind, Except.bind]

/-- Claim C7, amended part: when the strict parse fails with a
`ParserError`, the fault test succeeds on every data line, and the
re-parse of the kept lines still fails, `extract_file` does not propagate
the failure: it returns the empty `date / variable / flag` frame together
with one diagnostic naming the station and the failure. -/
theorem C7_theorem (z : Zip) (nr : IdArg) (v pol : String)
    (lines : List String) (fl : List Bool) (ce : CsvErr)
    (h1 : get_file_from_zip z nr pol = .ok (some lines))
    (h2 : readCsv lines 8 = .error .parserError)
    (h3 : mapE lineFaulty (lines.drop 8) = .ok fl)
    (h4 : readCsv (keptLinesSpec lines) 0 = .error ce) :
    extract_file z nr v pol =
      .ok (⟨["date", pyLower v, "flag"], []⟩, [Diag.parserFail (strOfId nr)]) := by
  have hk : ((lines.drop 8).zip fl).filterMap
      (fun p => if p.2 then none else some p.1) = keptLinesSpec lines :=
    kept_eq_spec (lines.drop 8) fl h3
  simp only [extract_file, h1, bind, Except.bind, h2, h3, hk, h4]
  rfl

end DE2

/-- Eight placeholder header lines (the exports carry 8 metadata lines). -/
def hdr8 : List String := ["h", "h", "h", "h", "h", "h", "h", "h"]

/-- Data lines of the Claim C6 witness file: a negative-value line with an
extra field breaks the strict parse and is excluded by the fallback. -/
def lines6 : List String :=
  hdr8 ++ ["20200101 2 x y", "20200102 -5 x y z", "20200103 3 x y"]

/-- The witness zip for Claim C6 (short id `42`). -/
def z6 : DE2.Zip := [("d/42.csv", lines6)]

/-- The re-parse result of the kept lines of `lines6`. -/
def raw2W : DE2.Csv :=
  ⟨4, [[.num ⟨20200101, 0⟩, .num ⟨2, 0⟩, .str "x", .str "y"],
       [.num ⟨20200103, 0⟩, .num ⟨3, 0⟩, .str "x", .str "y"]]⟩

/-- Claim C6, witness: on the concrete zip, the negative line is excluded
(two of three data lines survive) and the single diagnostic carries its
original-file position. -/
theorem C6_witness :
    ∃ obs : List DE2.Obs2,
      DE2.extract_file z6 (.inr 42) "q" "raise" =
        .ok (⟨["date", pyLower "q", "flag"], obs⟩,
             [DE2.Diag.faultyRows "42" (DE2.faultyPositionsSpec lines6)]) ∧
      obs.length = (DE2.keptLinesSpec lines6).length :=
  DE2.C6_theorem z6 (.inr 42) "q" "raise" lines6 raw2W [false, true, false]
    (by decide) (by decide) (by decide) (by decide) rfl (by decide)

/-- Data lines of the Claim C7 witness file: after excluding the negative
line, a kept line still has too many fields, so the re-parse fails too. -/
def lines7 : List String :=
  hdr8 ++ ["20200101 2 x y", "20200102 -5 x y z", "20200103 3 x y z w"]

/-- The witness zip for Claim C7 (short id `43`). -/
def z7 : DE2.Zip := [("d/43.csv", lines7)]

/-- Claim C7, witness: on the concrete zip whose re-parse fails again,
`extract_file` returns the empty frame plus the station-naming diagnostic
instead of raising. -/
theorem C7_witness :
    DE2.extract_file z7 (.inl "43") "q" "raise" =
      .ok (⟨["date", pyLower "q", "flag"], []⟩, [DE2.Diag.parserFail "43"]) :=
  DE2.C7_theorem z7 (.inl "43") "q" "raise" lines7 [false, true, false]
    .parserError (by decide) (by decide) (by decide) (by decide)

/-- A zip whose file breaks the strict parse and whose data contains a
line without a second field. -/
def z7bad : DE2.Zip :=
  [("9.csv", hdr8 ++ ["20200101 2 x y", "20200102 2 x y z", "bad"])]

/-- Claim C7, counterexample: the strict parse of this file fails, but the
fallback's own fault test raises on the malformed line `bad` (no second
field), and that failure propagates to the caller — so the fallback does
not make every strict-parse failure non-raising. -/
theorem C7_counterexample :
    DE2.extract_file z7bad (.inl "9") "q" "raise" = .error () := by
  decide

end Camelsp
